import Mathlib

/-!
Shallow embedding of the triangular-arbitrage detection engine
(src/math.rs, src/graph.rs, src/types.rs, src/multi_path.rs) and proofs
of the specification claims about it.

Modelling conventions:
  * f64 values are modelled as real numbers; f64 INFINITY (used for edge
    weights and SPFA distances) is modelled as the top element of
    WithTop Real.
  * U256 reserves are modelled as Nat, converted to token units by
    dividing by ten to the eighteenth, as math.rs does.
  * Rust Option is Lean Option; a Rust index-out-of-bounds panic is
    modelled as the none branch of the corresponding Option-returning
    embedding, stated explicitly where it occurs.
  * Loops are modelled by structural recursion; the one unbounded loop
    (the SPFA queue loop) takes an explicit fuel argument, set generously
    by its caller; the claims proved about it hold for every fuel value.
-/

namespace TriArb

/-- Addresses are abstract identities; only equality on them is used. -/
abbrev Address := Nat

/-- Token enum from src/types.rs: identity is the variant plus address. -/
inductive Token where
  | WMNT (addr : Address)
  | MOE (addr : Address)
  | JOE (addr : Address)
deriving DecidableEq, Repr

instance : Inhabited Token := ⟨Token.WMNT 0⟩

/-- Weight type for SPFA: an f64 that may be positive infinity. -/
abbrev Weight := WithTop ℝ

/-- From src/math.rs: u256_to_f64 converts wei to token units. -/
noncomputable def u256_to_f64 (value : Nat) : ℝ :=
  (value : ℝ) / 1e18

/-- From src/math.rs: constant product swap.
Rust: if dx, x_reserve or y_reserve is non-positive return 0;
else (y_reserve * dx_after_fee) / (x_reserve + dx_after_fee). -/
noncomputable def swap (x_reserve y_reserve dx fee : ℝ) : ℝ :=
  if dx ≤ 0 ∨ x_reserve ≤ 0 ∨ y_reserve ≤ 0 then 0
  else
    let dx_after_fee := dx * (1 - fee)
    (y_reserve * dx_after_fee) / (x_reserve + dx_after_fee)

/-- From src/math.rs: arbitrage_profit. Rust returns the sentinel -1.0
whenever the pools slice does not have exactly 3 entries; otherwise it
chains swap across the three pools and subtracts the input. -/
noncomputable def arbitrage_profit (dx : ℝ) (pools : List (ℝ × ℝ)) (fee : ℝ) : ℝ :=
  if pools.length ≠ 3 then -1
  else
    let p0 := pools.getD 0 (0, 0)
    let p1 := pools.getD 1 (0, 0)
    let p2 := pools.getD 2 (0, 0)
    let dy1 := swap p0.1 p0.2 dx fee
    let dy2 := swap p1.1 p1.2 dy1 fee
    let dy3 := swap p2.1 p2.2 dy2 fee
    dy3 - dx

/-- Modelled from the spec (section 4.4): the profit objective the spec
describes, chaining the single-swap AMM output formula across every hop
of the pools list in order and subtracting the original input. Used to
compare the source arbitrage_profit against the spec for claim C1. -/
noncomputable def chainedSwapProfit (dx : ℝ) (pools : List (ℝ × ℝ)) (fee : ℝ) : ℝ :=
  (pools.foldl (fun amount p => swap p.1 p.2 amount fee) dx) - dx

/-- From src/math.rs: one ternary-search round narrowing the interval,
iterated a fixed number of times. -/
noncomputable def ternary_search_loop (pools : List (ℝ × ℝ)) (fee : ℝ) :
    Nat → ℝ × ℝ → ℝ × ℝ
  | 0, lr => lr
  | n + 1, lr =>
    let left := lr.1
    let right := lr.2
    let m1 := left + (right - left) / 3
    let m2 := right - (right - left) / 3
    let p1 := arbitrage_profit m1 pools fee
    let p2 := arbitrage_profit m2 pools fee
    let lr' := if p1 < p2 then (m1, right) else (left, m2)
    ternary_search_loop pools fee n lr'

/-- From src/math.rs: find_best_input. The Rust function reads pools[0].0
unconditionally to set the search upper bound, which panics on an empty
slice; that panic is modelled as the none branch here. -/
noncomputable def find_best_input (pools : List (ℝ × ℝ)) (fee : ℝ)
    (iterations : Nat) : Option (ℝ × ℝ) :=
  match pools.head? with
  | none => none
  | some p0 =>
    let left : ℝ := 0
    let right : ℝ := p0.1 * 0.999
    let lr := ternary_search_loop pools fee iterations (left, right)
    let best_input := (lr.1 + lr.2) / 2
    let best_profit := arbitrage_profit best_input pools fee
    some (best_input, best_profit)

/-- Concrete 4-pool list: what cycle_to_pools produces for a 4-hop cycle
through four balanced pools. -/
noncomputable def fourBalancedPools : List (ℝ × ℝ) :=
  [(1000, 1000), (1000, 1000), (1000, 1000), (1000, 1000)]

/-- From src/types.rs: Token::address. -/
def Token.addressOf : Token → Address
  | Token.WMNT addr => addr
  | Token.MOE addr => addr
  | Token.JOE addr => addr

/-- From src/graph.rs: token graph node. -/
structure TokenNode where
  token : Token
  address : Address
deriving DecidableEq, Repr

/-- From src/graph.rs: TokenNode::new. -/
def TokenNode.new (token : Token) : TokenNode :=
  { token := token, address := token.addressOf }

/-- From src/graph.rs: pool edge with the pair of directed SPFA weights. -/
structure PoolEdge where
  pool_address : Address
  token_a : Token
  token_b : Token
  reserves_a : ℝ
  reserves_b : ℝ
  fee : ℝ
  weight_a_to_b : Weight
  weight_b_to_a : Weight

/-- From src/graph.rs, PoolEdge::calculate_log_weights: the EPSILON
constant guarding degenerate reserves and degenerate rates. -/
noncomputable def EPSILON : ℝ := 1e-10

/-- From src/graph.rs: PoolEdge::calculate_log_weights. Both weights are
infinite when either reserve is at most EPSILON; each direction is also
infinite when its fee-adjusted rate is at most EPSILON, and is the
negated natural log of the rate otherwise. -/
noncomputable def calculate_log_weights (reserves_a reserves_b fee : ℝ) :
    Weight × Weight :=
  if reserves_a ≤ EPSILON ∨ reserves_b ≤ EPSILON then (⊤, ⊤)
  else
    let effective_fee := 1 - fee
    let rate_a_to_b := (reserves_b * effective_fee) / reserves_a
    let rate_b_to_a := (reserves_a * effective_fee) / reserves_b
    let weight_a_to_b : Weight :=
      if rate_a_to_b > EPSILON then ((-Real.log rate_a_to_b : ℝ) : Weight) else ⊤
    let weight_b_to_a : Weight :=
      if rate_b_to_a > EPSILON then ((-Real.log rate_b_to_a : ℝ) : Weight) else ⊤
    (weight_a_to_b, weight_b_to_a)

/-- From src/graph.rs: PoolEdge::new computes both weights at
construction. -/
noncomputable def PoolEdge.new (pool_address : Address) (token_a token_b : Token)
    (reserves_a reserves_b fee : ℝ) : PoolEdge :=
  let w := calculate_log_weights reserves_a reserves_b fee
  { pool_address := pool_address
    token_a := token_a
    token_b := token_b
    reserves_a := reserves_a
    reserves_b := reserves_b
    fee := fee
    weight_a_to_b := w.1
    weight_b_to_a := w.2 }

/-- From src/graph.rs: PoolEdge::update_reserves stores the new reserves
and recomputes both weights in place. -/
noncomputable def PoolEdge.update_reserves (pe : PoolEdge)
    (reserves_a reserves_b : ℝ) : PoolEdge :=
  let w := calculate_log_weights reserves_a reserves_b pe.fee
  { pe with
    reserves_a := reserves_a
    reserves_b := reserves_b
    weight_a_to_b := w.1
    weight_b_to_a := w.2 }

/-- From src/graph.rs: PoolEdge::calculate_output. Matches token_in
against token_a first, then token_b; none on a mismatch or any
non-positive matched reserve or input; else the constant-product output
with the fee taken off the input. -/
noncomputable def PoolEdge.calculate_output (pe : PoolEdge) (input_amount : ℝ)
    (token_in : Token) : Option ℝ :=
  let sides : Option (ℝ × ℝ) :=
    if token_in = pe.token_a then some (pe.reserves_a, pe.reserves_b)
    else if token_in = pe.token_b then some (pe.reserves_b, pe.reserves_a)
    else none
  match sides with
  | none => none
  | some (reserve_in, reserve_out) =>
    if reserve_in ≤ 0 ∨ reserve_out ≤ 0 ∨ input_amount ≤ 0 then none
    else
      let input_with_fee := input_amount * (1 - pe.fee)
      let output := (input_with_fee * reserve_out) / (reserve_in + input_with_fee)
      some output

/-- From src/graph.rs: directed edge payload for the SPFA search. -/
structure DirectedEdge where
  pool_address : Address
  from_token : Token
  to_token : Token
  weight : Weight
  original_pool : PoolEdge

/-- From src/graph.rs: DirectedEdge::new. -/
def DirectedEdge.new (pool : PoolEdge) (from_token to_token : Token)
    (weight : Weight) : DirectedEdge :=
  { pool_address := pool.pool_address
    from_token := from_token
    to_token := to_token
    weight := weight
    original_pool := pool }

/-- From src/types.rs: a reserve snapshot for one pool; reserves are raw
wei amounts (U256, modelled as Nat). Block number and timestamp are
dropped: nothing in the embedded engine reads them. -/
structure PoolReserves where
  token_a : Token
  reserve_a : Nat
  token_b : Token
  reserve_b : Nat
  pool_address : Address

/-- From src/graph.rs: the token graph. The petgraph DiGraph is embedded
as a node list (node index is the list position) plus an edge list of
(source node, target node, payload); edges are kept most-recent-first,
matching the order petgraph iterates and searches the outgoing edges of
a node. -/
structure TokenGraph where
  nodes : List TokenNode
  edges : List (Nat × Nat × DirectedEdge)
  token_to_node : List (Token × Nat)
  wmnt_token : Token

/-- From src/graph.rs: TokenGraph::new. -/
def TokenGraph.new (wmnt_token : Token) : TokenGraph :=
  { nodes := [], edges := [], token_to_node := [], wmnt_token := wmnt_token }

/-- HashMap lookup self.token_to_node.get(token), as used throughout
src/graph.rs. -/
def TokenGraph.lookupToken (g : TokenGraph) (t : Token) : Option Nat :=
  (g.token_to_node.find? (fun p => p.1 = t)).map (fun p => p.2)

/-- From src/graph.rs: TokenGraph::add_token, idempotent. Returns the
graph and the node index. -/
def TokenGraph.add_token (g : TokenGraph) (t : Token) : TokenGraph × Nat :=
  match g.lookupToken t with
  | some idx => (g, idx)
  | none =>
    let idx := g.nodes.length
    ({ g with
        nodes := g.nodes ++ [TokenNode.new t]
        token_to_node := (t, idx) :: g.token_to_node }, idx)

/-- petgraph find_edge composed with edge_weight: the first edge (in
most-recent-first order) from node a to node b, if any. -/
def TokenGraph.find_edge (g : TokenGraph) (a b : Nat) : Option DirectedEdge :=
  (g.edges.find? (fun e => e.1 = a ∧ e.2.1 = b)).map (fun e => e.2.2)

/-- petgraph edge_weight_mut on the edge find_edge locates: replace the
payload of the first edge from a to b, leaving the rest alone. -/
def update_first_edge (edges : List (Nat × Nat × DirectedEdge)) (a b : Nat)
    (f : DirectedEdge → DirectedEdge) : List (Nat × Nat × DirectedEdge) :=
  match edges with
  | [] => []
  | e :: rest =>
    if e.1 = a ∧ e.2.1 = b then (e.1, e.2.1, f e.2.2) :: rest
    else e :: update_first_edge rest a b f

/-- From src/graph.rs: TokenGraph::add_pool creates both tokens when
needed, builds the PoolEdge, and inserts the two directed edges. -/
noncomputable def TokenGraph.add_pool (g : TokenGraph) (pool_reserves : PoolReserves)
    (fee : ℝ) : TokenGraph :=
  let r1 := g.add_token pool_reserves.token_a
  let g1 := r1.1
  let token_a_idx := r1.2
  let r2 := g1.add_token pool_reserves.token_b
  let g2 := r2.1
  let token_b_idx := r2.2
  let reserves_a := u256_to_f64 pool_reserves.reserve_a
  let reserves_b := u256_to_f64 pool_reserves.reserve_b
  let pool_edge := PoolEdge.new pool_reserves.pool_address
    pool_reserves.token_a pool_reserves.token_b reserves_a reserves_b fee
  let edge_a_to_b := DirectedEdge.new pool_edge
    pool_reserves.token_a pool_reserves.token_b pool_edge.weight_a_to_b
  let edge_b_to_a := DirectedEdge.new pool_edge
    pool_reserves.token_b pool_reserves.token_a pool_edge.weight_b_to_a
  { g2 with
      edges := (token_b_idx, token_a_idx, edge_b_to_a) ::
               (token_a_idx, token_b_idx, edge_a_to_b) :: g2.edges }

/-- From src/graph.rs, inside TokenGraph::update_pool: the in-place
mutation of the a-to-b directed edge, refreshing its embedded pool and
taking the pool's fresh a-to-b weight. -/
noncomputable def update_edge_a_to_b (reserves_a reserves_b : ℝ)
    (de : DirectedEdge) : DirectedEdge :=
  let pool := de.original_pool.update_reserves reserves_a reserves_b
  { de with original_pool := pool, weight := pool.weight_a_to_b }

/-- From src/graph.rs, inside TokenGraph::update_pool: the in-place
mutation of the b-to-a directed edge, taking the fresh b-to-a weight. -/
noncomputable def update_edge_b_to_a (reserves_a reserves_b : ℝ)
    (de : DirectedEdge) : DirectedEdge :=
  let pool := de.original_pool.update_reserves reserves_a reserves_b
  { de with original_pool := pool, weight := pool.weight_b_to_a }

/-- From src/graph.rs: TokenGraph::update_pool. A silent no-op when
either token is unknown; otherwise updates the a-to-b edge then the
b-to-a edge (when present), refreshing each one's embedded pool and its
directed weight. -/
noncomputable def TokenGraph.update_pool (g : TokenGraph)
    (pool_reserves : PoolReserves) : TokenGraph :=
  match g.lookupToken pool_reserves.token_a with
  | none => g
  | some token_a_idx =>
    match g.lookupToken pool_reserves.token_b with
    | none => g
    | some token_b_idx =>
      let reserves_a := u256_to_f64 pool_reserves.reserve_a
      let reserves_b := u256_to_f64 pool_reserves.reserve_b
      let g1 := { g with
        edges := update_first_edge g.edges token_a_idx token_b_idx
          (update_edge_a_to_b reserves_a reserves_b) }
      { g1 with
        edges := update_first_edge g1.edges token_b_idx token_a_idx
          (update_edge_b_to_a reserves_a reserves_b) }

/-- From src/graph.rs: TokenGraph::get_pool_info, the read-only lookup
returning the embedded PoolEdge of the first token_a-to-token_b edge. -/
def TokenGraph.get_pool_info (g : TokenGraph) (token_a token_b : Token) :
    Option PoolEdge :=
  match g.lookupToken token_a with
  | none => none
  | some token_a_idx =>
    match g.lookupToken token_b with
    | none => none
    | some token_b_idx =>
      match g.find_edge token_a_idx token_b_idx with
      | none => none
      | some directed_edge => some directed_edge.original_pool

/-- From src/types.rs: path type classification. -/
inductive PathType where
  | ThreeHop
  | FourHop
  | Custom (n : Nat)
deriving DecidableEq, Repr

/-- From src/types.rs: an arbitrage path of tokens and pool addresses. -/
structure ArbitragePath where
  tokens : List Token
  pools : List Address
  path_type : PathType
deriving DecidableEq, Repr

/-- From src/types.rs: ArbitragePath::new classifies by matching on
tokens.len(): 3 gives ThreeHop, 4 gives FourHop, anything else Custom
of the token count. -/
def ArbitragePath.new (tokens : List Token) (pools : List Address) :
    ArbitragePath :=
  let path_type :=
    match tokens.length with
    | 3 => PathType.ThreeHop
    | 4 => PathType.FourHop
    | _ => PathType.Custom tokens.length
  { tokens := tokens, pools := pools, path_type := path_type }

/-- From src/types.rs: ArbitragePath::is_cycle. -/
def ArbitragePath.is_cycle (p : ArbitragePath) : Bool :=
  p.tokens.head? == p.tokens.getLast?

/-- Modelled from the spec (section 4.4): GAS_UNITS_3_HOPS is used by the
source but its defining constants module entry is not among the
available files; the spec fixes only that 3-hop and 4-hop unit costs are
distinct constants, so representative distinct values are used. -/
def GAS_UNITS_3_HOPS : Nat := 300000

/-- Modelled from the spec (section 4.4): GAS_UNITS_4_HOPS, see
GAS_UNITS_3_HOPS. -/
def GAS_UNITS_4_HOPS : Nat := 400000

/-- Modelled from the spec (section 4.4): GWEI_TO_MNT_MULTIPLIER, the
configured unit price converting gas units times gwei price into the
base currency; its constants module entry is not among the available
files. -/
noncomputable def GWEI_TO_MNT_MULTIPLIER : ℝ := 1e-9

/-- From src/types.rs: ArbitragePath::expected_gas_units picks the
constant from the stored path type, with a linear estimate for Custom. -/
def ArbitragePath.expected_gas_units (p : ArbitragePath) : Nat :=
  match p.path_type with
  | PathType.ThreeHop => GAS_UNITS_3_HOPS
  | PathType.FourHop => GAS_UNITS_4_HOPS
  | PathType.Custom _ => GAS_UNITS_3_HOPS + p.tokens.length * 10000

/-- From src/types.rs: an evaluated arbitrage opportunity. -/
structure ArbitrageOpportunity where
  optimal_input : ℝ
  final_output : ℝ
  gross_profit : ℝ
  net_profit : ℝ
  profit_percentage : ℝ
  search_method : String
  path : Option ArbitragePath

/-- From src/types.rs: ArbitrageOpportunity::is_profitable is a strictly
positive net profit. -/
noncomputable def ArbitrageOpportunity.is_profitable
    (o : ArbitrageOpportunity) : Bool :=
  decide (o.net_profit > 0)

/-- From src/types.rs: ArbitrageOpportunity::hop_count is the token count
of the path minus one (saturating), 0 when there is no path. -/
def ArbitrageOpportunity.hop_count (o : ArbitrageOpportunity) : Nat :=
  match o.path with
  | some p => p.tokens.length - 1
  | none => 0

/-- Total comparison on reals, matching how the the Rust float
comparison (unwrapped to Equal when undefined) behaves on non-NaN
values. -/
noncomputable def rcmp (a b : ℝ) : Ordering :=
  if a < b then Ordering.lt else if a = b then Ordering.eq else Ordering.gt

/-- Rust Iterator::max_by: none on an empty iterator; of several equally
maximal elements the last one is returned, so the accumulator is kept
only when it compares strictly greater. -/
def max_by {α : Type} (l : List α) (cmp : α → α → Ordering) : Option α :=
  l.foldl (fun acc x =>
    match acc with
    | none => some x
    | some a => if cmp a x = Ordering.gt then some a else some x) none

/-- Rust Iterator::min_by: none on an empty iterator; of several equally
minimal elements the first one is returned, so the accumulator is
replaced only when the new element compares strictly smaller. -/
def min_by {α : Type} (l : List α) (cmp : α → α → Ordering) : Option α :=
  l.foldl (fun acc x =>
    match acc with
    | none => some x
    | some a => if cmp x a = Ordering.lt then some x else some a) none

/-- From src/types.rs: the multi-path analysis result. -/
structure MultiPathOpportunity where
  opportunities : List ArbitrageOpportunity
  best_opportunity : Option ArbitrageOpportunity
  total_profit : ℝ
  analysis_time_ms : Nat

/-- From src/types.rs: MultiPathOpportunity::new takes the maximum by
net profit over the whole unfiltered list as best_opportunity, and sums
net profit over the profitable members only as total_profit. -/
noncomputable def MultiPathOpportunity.new
    (opportunities : List ArbitrageOpportunity) (analysis_time_ms : Nat) :
    MultiPathOpportunity :=
  let best_opportunity :=
    max_by opportunities (fun a b => rcmp a.net_profit b.net_profit)
  let total_profit :=
    ((opportunities.filter (fun o => o.is_profitable)).map
      (fun o => o.net_profit)).sum
  { opportunities := opportunities
    best_opportunity := best_opportunity
    total_profit := total_profit
    analysis_time_ms := analysis_time_ms }

/-- From src/types.rs: MultiPathOpportunity::profitable_opportunities. -/
noncomputable def MultiPathOpportunity.profitable_opportunities
    (m : MultiPathOpportunity) : List ArbitrageOpportunity :=
  m.opportunities.filter (fun o => o.is_profitable)

/-- From src/multi_path.rs: the optimization strategies. -/
inductive OptimizationStrategy where
  | MaxProfit
  | MaxProfitPercent
  | MinRisk
  | BalancedRiskReturn
deriving DecidableEq, Repr

/-- From src/multi_path.rs: StrategySelector::select_best. Empty input
gives none; every strategy first filters to profitable opportunities
then selects by its objective. -/
noncomputable def select_best (opportunities : List ArbitrageOpportunity)
    (strategy : OptimizationStrategy) : Option ArbitrageOpportunity :=
  if opportunities.isEmpty then none
  else
    match strategy with
    | OptimizationStrategy.MaxProfit =>
      max_by (opportunities.filter (fun o => o.is_profitable))
        (fun a b => rcmp a.net_profit b.net_profit)
    | OptimizationStrategy.MaxProfitPercent =>
      max_by (opportunities.filter (fun o => o.is_profitable))
        (fun a b => rcmp a.profit_percentage b.profit_percentage)
    | OptimizationStrategy.MinRisk =>
      min_by (opportunities.filter (fun o => o.is_profitable))
        (fun a b => compare a.hop_count b.hop_count)
    | OptimizationStrategy.BalancedRiskReturn =>
      max_by (opportunities.filter (fun o => o.is_profitable))
        (fun a b => rcmp (a.net_profit / (a.hop_count : ℝ) ^ 2)
                         (b.net_profit / (b.hop_count : ℝ) ^ 2))

instance : Inhabited TokenNode := ⟨TokenNode.new default⟩

/-- From src/graph.rs: the mutable state of the SPFA search. -/
structure SpfaState where
  dist : Array Weight
  predecessor : Array (Option Nat)
  in_queue : Array Bool
  queue_count : Array Nat
  queue : List Nat
  negative_cycle_nodes : List Nat

/-- HashSet::insert on the negative-cycle node set. -/
def insertNode (n : Nat) (l : List Nat) : List Nat :=
  if l.contains n then l else n :: l

/-- From src/graph.rs: relaxing one outgoing edge inside the SPFA main
loop: on improvement update distance and predecessor, enqueue the
target when it is not queued, bump its counter, and flag it when the
counter passes the node count. -/
noncomputable def spfa_relax (node_count current : Nat) (st : SpfaState)
    (e : Nat × Nat × DirectedEdge) : SpfaState :=
  let neighbor := e.2.1
  let new_dist := st.dist.getD current ⊤ + e.2.2.weight
  if new_dist < st.dist.getD neighbor ⊤ then
    let st := { st with
      dist := st.dist.setD neighbor new_dist
      predecessor := st.predecessor.setD neighbor (some current) }
    if st.in_queue.getD neighbor false = false then
      let qc := st.queue_count.getD neighbor 0 + 1
      let st := { st with
        queue := st.queue ++ [neighbor]
        in_queue := st.in_queue.setD neighbor true
        queue_count := st.queue_count.setD neighbor qc }
      if qc > node_count then
        { st with negative_cycle_nodes := insertNode neighbor st.negative_cycle_nodes }
      else st
    else st
  else st

/-- From src/graph.rs: the SPFA main loop. Pops the queue head, skips
relaxation for a node whose counter exceeded the node count (flagging
it), otherwise relaxes its outgoing edges in graph order. Fuel bounds
the iteration count; the caller passes a generous bound and every
property proved below holds for all fuel values. -/
noncomputable def spfa_loop (g : TokenGraph) (node_count : Nat) :
    Nat → SpfaState → SpfaState
  | 0, st => st
  | fuel + 1, st =>
    match st.queue with
    | [] => st
    | current :: rest =>
      let st := { st with queue := rest, in_queue := st.in_queue.setD current false }
      if st.queue_count.getD current 0 > node_count then
        spfa_loop g node_count fuel
          { st with negative_cycle_nodes := insertNode current st.negative_cycle_nodes }
      else
        let st := (g.edges.filter (fun e => e.1 = current)).foldl
          (spfa_relax node_count current) st
        spfa_loop g node_count fuel st

/-- Fuel handed to the SPFA loop: generous in the graph size. -/
def spfa_fuel (g : TokenGraph) : Nat :=
  (g.nodes.length + 2) * (g.nodes.length + 2) * (g.edges.length + 2)

/-- From src/graph.rs: TokenGraph::rearrange_cycle_with_wmnt rotates the
cycle so it starts at the base node and appends the base node when it
does not already close there. Takes no graph data. -/
def rearrange_cycle_with_wmnt (cycle : List Nat) (wmnt_node : Nat) :
    Option (List Nat) :=
  match cycle.findIdx? (fun node => node == wmnt_node) with
  | some wmnt_pos =>
    let cycle := cycle.rotateLeft wmnt_pos
    if cycle.getLast? ≠ some wmnt_node then some (cycle ++ [wmnt_node])
    else some cycle
  | none => none

/-- From src/graph.rs: the for loop of TokenGraph::extend_cycle_to_wmnt,
scanning cycle members for a direct edge from the base node, then
requiring a direct edge from the cycle's last node back to the base
node and the hop bound. -/
def extend_cycle_loop (g : TokenGraph) (cycle : List Nat) (wmnt_node : Nat)
    (max_hops : Nat) : List Nat → Option (List Nat)
  | [] => none
  | cycle_node :: rest =>
    if (g.find_edge wmnt_node cycle_node).isSome then
      let extended := wmnt_node :: cycle
      match cycle.getLast? with
      | some last_node =>
        if (g.find_edge last_node wmnt_node).isSome then
          let extended := extended ++ [wmnt_node]
          if extended.length ≤ max_hops + 1 then some extended
          else extend_cycle_loop g cycle wmnt_node max_hops rest
        else extend_cycle_loop g cycle wmnt_node max_hops rest
      | none => extend_cycle_loop g cycle wmnt_node max_hops rest
    else extend_cycle_loop g cycle wmnt_node max_hops rest

/-- From src/graph.rs: TokenGraph::extend_cycle_to_wmnt. -/
def TokenGraph.extend_cycle_to_wmnt (g : TokenGraph) (cycle : List Nat)
    (wmnt_node : Nat) (max_hops : Nat) : Option (List Nat) :=
  extend_cycle_loop g cycle wmnt_node max_hops cycle

/-- From src/graph.rs: the backward predecessor walk of
TokenGraph::reconstruct_cycle. On revisiting a node the cyclic
sub-sequence is cut out and closed, then extended or rearranged around
the base node; the walk stops (yielding none) when a predecessor is
missing or the walked path exceeds twice the hop bound. -/
noncomputable def reconstruct_cycle_loop (g : TokenGraph)
    (predecessor : Array (Option Nat)) (wmnt_node max_hops : Nat) :
    Nat → Nat → List Nat → List Nat → Option (List Nat)
  | 0, _, _, _ => none
  | fuel + 1, current, visited, path =>
    if visited.contains current then
      match path.findIdx? (fun node => node == current) with
      | none => none
      | some cycle_start_pos =>
        let cycle_path := path.drop cycle_start_pos ++ [current]
        if cycle_path.contains wmnt_node then
          rearrange_cycle_with_wmnt cycle_path wmnt_node
        else
          match g.extend_cycle_to_wmnt cycle_path wmnt_node max_hops with
          | some extended => some extended
          | none => none
    else
      let visited := current :: visited
      let path := path ++ [current]
      match predecessor.getD current none with
      | some prev =>
        if path.length > max_hops * 2 then none
        else reconstruct_cycle_loop g predecessor wmnt_node max_hops fuel prev visited path
      | none => none

/-- From src/graph.rs: TokenGraph::reconstruct_cycle. The Rust loop runs
at most two-times-max-hops plus one iterations (the walked path grows by
one node per iteration and the loop breaks past that bound), so the
fuel below is never exhausted and the embedding matches the source. -/
noncomputable def TokenGraph.reconstruct_cycle (g : TokenGraph) (start_node : Nat)
    (predecessor : Array (Option Nat)) (wmnt_node max_hops : Nat) :
    Option (List Nat) :=
  reconstruct_cycle_loop g predecessor wmnt_node max_hops
    (max_hops * 2 + 2) start_node [] []

/-- From src/graph.rs: TokenGraph::extract_negative_cycles keeps only
reconstructed cycles of node count between 4 and max_hops plus 1 that
start and end at the base node, and yields none when nothing survives. -/
noncomputable def TokenGraph.extract_negative_cycles (g : TokenGraph)
    (negative_cycle_nodes : List Nat) (predecessor : Array (Option Nat))
    (max_hops : Nat) : Option (List (List Nat)) :=
  match g.lookupToken g.wmnt_token with
  | none => none
  | some wmnt_node_idx =>
    let candidates := negative_cycle_nodes.filterMap (fun cycle_node =>
      g.reconstruct_cycle cycle_node predecessor wmnt_node_idx max_hops)
    let cycles := candidates.filter (fun cycle_path =>
      4 ≤ cycle_path.length ∧ cycle_path.length ≤ max_hops + 1 ∧
      cycle_path.head? = some wmnt_node_idx ∧
      cycle_path.getLast? = some wmnt_node_idx)
    if cycles.isEmpty then none else some cycles

/-- From src/graph.rs: TokenGraph::spfa_detect_negative_cycles seeds the
state at the source and runs the queue loop, then extracts cycles when
any node was flagged. -/
noncomputable def TokenGraph.spfa_detect_negative_cycles (g : TokenGraph)
    (source : Nat) (max_hops : Nat) : Option (List (List Nat)) :=
  let node_count := g.nodes.length
  if node_count = 0 then none
  else
    let st : SpfaState := {
      dist := (Array.mkArray node_count (⊤ : Weight)).setD source 0
      predecessor := Array.mkArray node_count none
      in_queue := (Array.mkArray node_count false).setD source true
      queue_count := (Array.mkArray node_count 0).setD source 1
      queue := [source]
      negative_cycle_nodes := [] }
    let st := spfa_loop g node_count (spfa_fuel g) st
    if ¬ st.negative_cycle_nodes.isEmpty then
      g.extract_negative_cycles st.negative_cycle_nodes st.predecessor max_hops
    else none

/-- From src/graph.rs: TokenGraph::convert_node_path_to_arbitrage_path
maps node indices to tokens (indices produced by the search are in
bounds, so the default on an out-of-bounds read is never taken), looks
up the pool of each consecutive pair, and requires one pool per hop. -/
noncomputable def TokenGraph.convert_node_path_to_arbitrage_path (g : TokenGraph)
    (node_path : List Nat) : Option ArbitragePath :=
  if node_path.length < 3 then none
  else
    let tokens := node_path.map (fun idx => (g.nodes.getD idx default).token)
    let pools := (node_path.zip node_path.tail).filterMap (fun w =>
      (g.find_edge w.1 w.2).map (fun e => e.pool_address))
    if pools.length = tokens.length - 1 then
      some (ArbitragePath.new tokens pools)
    else none

/-- From src/graph.rs: TokenGraph::find_arbitrage_cycles. No node for
the base token yields no cycles; otherwise every extracted node cycle
that converts is returned. -/
noncomputable def TokenGraph.find_arbitrage_cycles (g : TokenGraph)
    (max_hops : Nat) : List ArbitragePath :=
  match g.lookupToken g.wmnt_token with
  | none => []
  | some wmnt_node_idx =>
    match g.spfa_detect_negative_cycles wmnt_node_idx max_hops with
    | some negative_cycles =>
      negative_cycles.filterMap (fun cycle_path =>
        g.convert_node_path_to_arbitrage_path cycle_path)
    | none => []

/-- From src/graph.rs: the hop loop of TokenGraph::calculate_path_profit,
replaying calculate_output over each consecutive token pair. -/
noncomputable def path_profit_loop (g : TokenGraph) :
    List Token → ℝ → Option ℝ
  | token_in :: token_out :: rest, current_amount =>
    match g.lookupToken token_in with
    | none => none
    | some token_in_idx =>
      match g.lookupToken token_out with
      | none => none
      | some token_out_idx =>
        match g.find_edge token_in_idx token_out_idx with
        | none => none
        | some edge =>
          match edge.original_pool.calculate_output current_amount token_in with
          | none => none
          | some next_amount => path_profit_loop g (token_out :: rest) next_amount
  | _, current_amount => some current_amount

/-- From src/graph.rs: TokenGraph::calculate_path_profit replays the
swaps along the path, adds the closing trade back to the base token
when the path does not already end there, and subtracts the input. -/
noncomputable def TokenGraph.calculate_path_profit (g : TokenGraph)
    (path : ArbitragePath) (input_amount : ℝ) : Option ℝ :=
  if path.tokens.length < 3 then none
  else
    match path_profit_loop g path.tokens input_amount with
    | none => none
    | some current_amount =>
      match path.tokens.getLast? with
      | some last_token =>
        if last_token ≠ g.wmnt_token then
          match g.lookupToken last_token with
          | none => none
          | some last_token_idx =>
            match g.lookupToken g.wmnt_token with
            | none => none
            | some wmnt_idx =>
              match g.find_edge last_token_idx wmnt_idx with
              | none => none
              | some edge =>
                match edge.original_pool.calculate_output current_amount last_token with
                | none => none
                | some out => some (out - input_amount)
        else some (current_amount - input_amount)
      | none => some (current_amount - input_amount)

/-- From src/multi_path.rs: the analyzer state. -/
structure MultiPathAnalyzer where
  graph : TokenGraph
  wmnt_token : Token
  dex_fee : ℝ
  gas_price_gwei : ℝ

/-- From src/multi_path.rs: the hop loop of
MultiPathAnalyzer::cycle_to_pools, orienting each pool's reserves by
which side the incoming token is. -/
noncomputable def cycle_to_pools_loop (g : TokenGraph) :
    List Token → Option (List (ℝ × ℝ))
  | token_in :: token_out :: rest =>
    match g.get_pool_info token_in token_out with
    | none => none
    | some pool_info =>
      let rp := if pool_info.token_a = token_in
        then (pool_info.reserves_a, pool_info.reserves_b)
        else (pool_info.reserves_b, pool_info.reserves_a)
      match cycle_to_pools_loop g (token_out :: rest) with
      | none => none
      | some others => some (rp :: others)
  | _ => some []

/-- From src/multi_path.rs: MultiPathAnalyzer::cycle_to_pools, appending
the closing pool back to the base token when the cycle does not already
end there. -/
noncomputable def MultiPathAnalyzer.cycle_to_pools (a : MultiPathAnalyzer)
    (cycle : ArbitragePath) : Option (List (ℝ × ℝ)) :=
  match cycle_to_pools_loop a.graph cycle.tokens with
  | none => none
  | some pools =>
    match cycle.tokens.getLast? with
    | some last_token =>
      if last_token ≠ a.wmnt_token then
        match a.graph.get_pool_info last_token a.wmnt_token with
        | none => none
        | some pool_info =>
          let rp := if pool_info.token_a = last_token
            then (pool_info.reserves_a, pool_info.reserves_b)
            else (pool_info.reserves_b, pool_info.reserves_a)
          some (pools ++ [rp])
      else some pools
    | none => some pools

/-- From src/multi_path.rs: MultiPathAnalyzer::calculate_gas_cost. -/
noncomputable def MultiPathAnalyzer.calculate_gas_cost (a : MultiPathAnalyzer)
    (cycle : ArbitragePath) : ℝ :=
  (cycle.expected_gas_units : ℝ) * a.gas_price_gwei * GWEI_TO_MNT_MULTIPLIER

/-- From src/multi_path.rs: MultiPathAnalyzer::analyze_cycle converts
the cycle to its pools list, ternary-searches the optimal input, and
derives net profit and percentage. -/
noncomputable def MultiPathAnalyzer.analyze_cycle (a : MultiPathAnalyzer)
    (cycle : ArbitragePath) (iterations : Nat) : Option ArbitrageOpportunity :=
  match a.cycle_to_pools cycle with
  | none => none
  | some pools =>
    match find_best_input pools a.dex_fee iterations with
    | none => none
    | some best =>
      let optimal_input := best.1
      let gross_profit := best.2
      let final_output := optimal_input + gross_profit
      let gas_cost := a.calculate_gas_cost cycle
      let net_profit := gross_profit - gas_cost
      let profit_percentage :=
        if optimal_input > 0 then (net_profit / optimal_input) * 100 else 0
      some {
        optimal_input := optimal_input
        final_output := final_output
        gross_profit := gross_profit
        net_profit := net_profit
        profit_percentage := profit_percentage
        search_method := "multi_path_ternary"
        path := some cycle }

/-- Well-formedness of a token graph: every entry of the token-to-node
map points at a node of the graph carrying that token. Every graph the
source builds through add_token and add_pool satisfies this. -/
def TokenGraph.wf (g : TokenGraph) : Bool :=
  g.token_to_node.all (fun p =>
    decide (p.2 < g.nodes.length ∧ (g.nodes.getD p.2 default).token = p.1))

/-- One-node witness graph holding only the base token. -/
def witnessGraphC2 : TokenGraph :=
  { nodes := [TokenNode.new (Token.WMNT 0)]
    edges := []
    token_to_node := [(Token.WMNT 0, 0)]
    wmnt_token := Token.WMNT 0 }

/-- Concrete opportunity with net profit 4, the first ranker test input
of the spec. -/
noncomputable def opp4 : ArbitrageOpportunity :=
  { optimal_input := 100, final_output := 105, gross_profit := 5, net_profit := 4,
    profit_percentage := 4, search_method := "test", path := none }

/-- Concrete opportunity with net profit 8, the second ranker test input
of the spec. -/
noncomputable def opp8 : ArbitrageOpportunity :=
  { optimal_input := 200, final_output := 210, gross_profit := 10, net_profit := 8,
    profit_percentage := 4, search_method := "test", path := none }

/-- Concrete unprofitable opportunity with net profit -5. -/
noncomputable def oppNeg : ArbitrageOpportunity :=
  { optimal_input := 100, final_output := 95, gross_profit := -3, net_profit := -5,
    profit_percentage := -5, search_method := "test", path := none }

/-- The per-path invariant of claim C2: token count within bounds and
base-token anchored at both ends. -/
def pathCheck (wmnt : Token) (max_hops : Nat) (p : ArbitragePath) : Bool :=
  decide (4 ≤ p.tokens.length) && decide (p.tokens.length ≤ max_hops + 1) &&
  decide (p.tokens.head? = some wmnt) && decide (p.tokens.getLast? = some wmnt)

/-- Two-token witness graph with one pool present in both directions. -/
noncomputable def witnessGraphC4 : TokenGraph :=
  { nodes := [TokenNode.new (Token.WMNT 0), TokenNode.new (Token.MOE 1)]
    edges :=
      [(0, 1, DirectedEdge.new
          { pool_address := 7, token_a := Token.WMNT 0, token_b := Token.MOE 1,
            reserves_a := 1, reserves_b := 1, fee := 0,
            weight_a_to_b := ⊤, weight_b_to_a := ⊤ }
          (Token.WMNT 0) (Token.MOE 1) ⊤),
       (1, 0, DirectedEdge.new
          { pool_address := 7, token_a := Token.WMNT 0, token_b := Token.MOE 1,
            reserves_a := 1, reserves_b := 1, fee := 0,
            weight_a_to_b := ⊤, weight_b_to_a := ⊤ }
          (Token.MOE 1) (Token.WMNT 0) ⊤)]
    token_to_node := [(Token.WMNT 0, 0), (Token.MOE 1, 1)]
    wmnt_token := Token.WMNT 0 }

/-- Fresh reserve snapshot for the witness pool. -/
def witnessReserves : PoolReserves :=
  { token_a := Token.WMNT 0, reserve_a := 2000000000000000000
    token_b := Token.MOE 1, reserve_b := 3000000000000000000
    pool_address := 7 }

/-- The single-swap output of a pool whose two reserves both equal r:
the value calculate_output yields whichever side the input token is. -/
noncomputable def amm_out_equal (r f x : ℝ) : ℝ :=
  x * (1 - f) * r / (r + x * (1 - f))

/-- Pool of the first witness hop (equal reserves, fee one half). -/
noncomputable def witnessPool01 : PoolEdge :=
  { pool_address := 11, token_a := Token.WMNT 0, token_b := Token.MOE 1,
    reserves_a := 1000, reserves_b := 1000, fee := 1 / 2,
    weight_a_to_b := ⊤, weight_b_to_a := ⊤ }

/-- Pool of the second witness hop. -/
noncomputable def witnessPool12 : PoolEdge :=
  { pool_address := 12, token_a := Token.MOE 1, token_b := Token.JOE 2,
    reserves_a := 1000, reserves_b := 1000, fee := 1 / 2,
    weight_a_to_b := ⊤, weight_b_to_a := ⊤ }

/-- Pool of the third witness hop. -/
noncomputable def witnessPool20 : PoolEdge :=
  { pool_address := 13, token_a := Token.JOE 2, token_b := Token.WMNT 0,
    reserves_a := 1000, reserves_b := 1000, fee := 1 / 2,
    weight_a_to_b := ⊤, weight_b_to_a := ⊤ }

/-- Directed edge of the first witness hop. -/
noncomputable def witnessEdge01 : DirectedEdge :=
  DirectedEdge.new witnessPool01 (Token.WMNT 0) (Token.MOE 1) ⊤

/-- Directed edge of the second witness hop. -/
noncomputable def witnessEdge12 : DirectedEdge :=
  DirectedEdge.new witnessPool12 (Token.MOE 1) (Token.JOE 2) ⊤

/-- Directed edge of the third witness hop. -/
noncomputable def witnessEdge20 : DirectedEdge :=
  DirectedEdge.new witnessPool20 (Token.JOE 2) (Token.WMNT 0) ⊤

/-- Three-token witness graph forming a closed 3-hop cycle of
equal-reserve pools. -/
noncomputable def witnessGraphC5 : TokenGraph :=
  { nodes := [TokenNode.new (Token.WMNT 0), TokenNode.new (Token.MOE 1),
      TokenNode.new (Token.JOE 2)]
    edges := [(0, 1, witnessEdge01), (1, 2, witnessEdge12), (2, 0, witnessEdge20)]
    token_to_node := [(Token.WMNT 0, 0), (Token.MOE 1, 1), (Token.JOE 2, 2)]
    wmnt_token := Token.WMNT 0 }

/-!  Theorems settling the claims. -/

/-- C10: find_best_input reads the first pool unconditionally to set the
ternary-search upper bound. It is total (returns a result) exactly on
non-empty pool lists: the embedded error branch that models the Rust
index-out-of-bounds panic is taken precisely for the empty list. -/
theorem find_best_input_none_iff_empty (pools : List (ℝ × ℝ)) (fee : ℝ)
    (iterations : Nat) :
    find_best_input pools fee iterations = none ↔ pools = [] := by
  cases pools with
  | nil => simp [find_best_input]
  | cons p rest => simp [find_best_input]

/-- C7: calculate_output returns none exactly when the input token
matches neither pool side, or the matched input-side reserve, the
output-side reserve, or the input amount is non-positive; otherwise it
returns the constant-product output with the fee taken off the input. -/
theorem calculate_output_spec (pe : PoolEdge) (x : ℝ) (t : Token) :
    (t ≠ pe.token_a ∧ t ≠ pe.token_b → pe.calculate_output x t = none) ∧
    (∀ rin rout : ℝ,
      ((t = pe.token_a ∧ rin = pe.reserves_a ∧ rout = pe.reserves_b) ∨
        (t ≠ pe.token_a ∧ t = pe.token_b ∧ rin = pe.reserves_b ∧
          rout = pe.reserves_a)) →
      (pe.calculate_output x t = none ↔ rin ≤ 0 ∨ rout ≤ 0 ∨ x ≤ 0) ∧
      (¬ (rin ≤ 0 ∨ rout ≤ 0 ∨ x ≤ 0) →
        pe.calculate_output x t =
          some (x * (1 - pe.fee) * rout / (rin + x * (1 - pe.fee))))) := by
  constructor
  · intro h
    simp [PoolEdge.calculate_output, h.1, h.2]
  · rintro rin rout (⟨ha, hrin, hrout⟩ | ⟨ha, hb, hrin, hrout⟩)
    · subst ha
      subst hrin
      subst hrout
      simp only [PoolEdge.calculate_output, if_pos rfl]
      constructor
      · by_cases hc : pe.reserves_a ≤ 0 ∨ pe.reserves_b ≤ 0 ∨ x ≤ 0
        · simp [hc]
        · simp [hc]
      · intro hc
        simp [hc]
    · subst hb
      subst hrin
      subst hrout
      simp only [PoolEdge.calculate_output, if_neg ha, if_pos rfl]
      constructor
      · by_cases hc : pe.reserves_b ≤ 0 ∨ pe.reserves_a ≤ 0 ∨ x ≤ 0
        · simp [hc]
        · simp [hc]
      · intro hc
        simp [hc]

/-- C3 (code bug): ArbitragePath::new classifies by token count rather
than hop count, so the canonical 3-hop cycle of 4 tokens is classified
FourHop while its own hop_count is 3; the claim (3 hops classified as
3-hop) fails on it. -/
theorem arbitrage_path_classification_bug :
    (ArbitragePath.new [Token.WMNT 0, Token.MOE 1, Token.JOE 2, Token.WMNT 0]
        [1, 2, 3]).path_type = PathType.FourHop ∧
    (ArbitrageOpportunity.hop_count
      { optimal_input := 0, final_output := 0, gross_profit := 0, net_profit := 0,
        profit_percentage := 0, search_method := "",
        path := some (ArbitragePath.new
          [Token.WMNT 0, Token.MOE 1, Token.JOE 2, Token.WMNT 0] [1, 2, 3]) }) = 3 ∧
    (ArbitragePath.new [Token.WMNT 0, Token.MOE 1, Token.JOE 2, Token.WMNT 0]
        [1, 2, 3]).path_type ≠ PathType.ThreeHop := by
  refine ⟨rfl, rfl, ?_⟩
  intro h
  simp [ArbitragePath.new] at h

/-- C6 counterexample: reserves 1e11 and 1 with zero fee both exceed
EPSILON, yet the a-to-b rate 1e-11 is itself at most EPSILON, so the
code assigns an infinite weight where the claim demands the negated
natural log of the rate. -/
theorem calculate_log_weights_tiny_rate_cex :
    ¬ ((1e11 : ℝ) ≤ EPSILON ∨ (1 : ℝ) ≤ EPSILON) ∧
    (calculate_log_weights 1e11 1 0).1 = ⊤ ∧
    (calculate_log_weights 1e11 1 0).1 ≠
      ((-Real.log (1 * (1 - 0) / 1e11) : ℝ) : Weight) := by
  have hcond : ¬ ((1e11 : ℝ) ≤ EPSILON ∨ (1 : ℝ) ≤ EPSILON) := by
    simp only [EPSILON]
    norm_num
  have hrate : ¬ ((1 : ℝ) * (1 - 0) / 1e11 > EPSILON) := by
    simp only [EPSILON]
    norm_num
  have htop : (calculate_log_weights 1e11 1 0).1 = ⊤ := by
    simp only [calculate_log_weights, if_neg hcond, if_neg hrate]
  refine ⟨hcond, htop, ?_⟩
  rw [htop]
  exact (WithTop.top_ne_coe)

/-- C6 (amended): at construction and after every update_reserves both
directed weights equal calculate_log_weights of the current reserves
(recomputed in full, never patched); both are infinite when either
reserve is at most EPSILON, and otherwise each direction is the negated
natural log of its fee-adjusted rate when that rate exceeds EPSILON and
infinite when the rate is itself at most EPSILON. -/
theorem pool_edge_weights_recomputed (pa : Address) (ta tb : Token)
    (ra rb ra' rb' fee : ℝ) :
    ((PoolEdge.new pa ta tb ra rb fee).weight_a_to_b,
     (PoolEdge.new pa ta tb ra rb fee).weight_b_to_a) =
      calculate_log_weights ra rb fee ∧
    (((PoolEdge.new pa ta tb ra rb fee).update_reserves ra' rb').weight_a_to_b,
     ((PoolEdge.new pa ta tb ra rb fee).update_reserves ra' rb').weight_b_to_a) =
      calculate_log_weights ra' rb' fee ∧
    (∀ x y f : ℝ, x ≤ EPSILON ∨ y ≤ EPSILON →
      calculate_log_weights x y f = (⊤, ⊤)) ∧
    (∀ x y f : ℝ, ¬ (x ≤ EPSILON ∨ y ≤ EPSILON) →
      calculate_log_weights x y f =
        ((if y * (1 - f) / x > EPSILON
            then ((-Real.log (y * (1 - f) / x) : ℝ) : Weight) else ⊤),
         (if x * (1 - f) / y > EPSILON
            then ((-Real.log (x * (1 - f) / y) : ℝ) : Weight) else ⊤))) := by
  refine ⟨rfl, rfl, ?_, ?_⟩
  · intro x y f h
    simp only [calculate_log_weights, if_pos h]
  · intro x y f h
    simp only [calculate_log_weights, if_neg h]

/-- C1 (code bug): on every 3-pool list arbitrage_profit equals the
spec's profit objective (chaining the swap formula over every hop and
subtracting the input), but on the 4-pool list that a 4-hop cycle
produces it returns the constant sentinel -1 instead of the chained
swap profit: the 4-hop branch of the evaluator optimizes a constant. -/
theorem arbitrage_profit_ignores_fourth_hop :
    arbitrage_profit 100 fourBalancedPools (3 / 1000) = -1 ∧
    chainedSwapProfit 100 fourBalancedPools (3 / 1000) ≠ -1 ∧
    (∀ (dx fee : ℝ) (p1 p2 p3 : ℝ × ℝ),
      arbitrage_profit dx [p1, p2, p3] fee =
        chainedSwapProfit dx [p1, p2, p3] fee) := by
  refine ⟨rfl, ?_, ?_⟩
  · norm_num [chainedSwapProfit, swap, fourBalancedPools]
  · intro dx fee p1 p2 p3
    simp [arbitrage_profit, chainedSwapProfit, swap, List.getD]

/-- The fold underlying max_by keeps a some accumulator. -/
theorem max_by_foldl_isSome {α : Type} (cmp : α → α → Ordering) :
    ∀ (l : List α) (a : α),
      (l.foldl (fun acc x =>
        match acc with
        | none => some x
        | some a => if cmp a x = Ordering.gt then some a else some x)
        (some a)).isSome = true := by
  intro l
  induction l with
  | nil => intro a; rfl
  | cons x xs ih =>
    intro a
    simp only [List.foldl_cons]
    by_cases h : cmp a x = Ordering.gt
    · simpa [h] using ih a
    · simpa [h] using ih x

/-- max_by returns none exactly on the empty list. -/
theorem max_by_eq_none_iff {α : Type} (l : List α) (cmp : α → α → Ordering) :
    max_by l cmp = none ↔ l = [] := by
  cases l with
  | nil => simp [max_by]
  | cons x xs =>
    have h := max_by_foldl_isSome cmp xs x
    simp only [max_by, List.foldl_cons]
    constructor
    · intro hn
      rw [hn] at h
      simp at h
    · intro hn
      exact absurd hn (List.cons_ne_nil x xs)

/-- The fold underlying min_by keeps a some accumulator. -/
theorem min_by_foldl_isSome {α : Type} (cmp : α → α → Ordering) :
    ∀ (l : List α) (a : α),
      (l.foldl (fun acc x =>
        match acc with
        | none => some x
        | some a => if cmp x a = Ordering.lt then some x else some a)
        (some a)).isSome = true := by
  intro l
  induction l with
  | nil => intro a; rfl
  | cons x xs ih =>
    intro a
    simp only [List.foldl_cons]
    by_cases h : cmp x a = Ordering.lt
    · simpa [h] using ih x
    · simpa [h] using ih a

/-- min_by returns none exactly on the empty list. -/
theorem min_by_eq_none_iff {α : Type} (l : List α) (cmp : α → α → Ordering) :
    min_by l cmp = none ↔ l = [] := by
  cases l with
  | nil => simp [min_by]
  | cons x xs =>
    have h := min_by_foldl_isSome cmp xs x
    simp only [min_by, List.foldl_cons]
    constructor
    · intro hn
      rw [hn] at h
      simp at h
    · intro hn
      exact absurd hn (List.cons_ne_nil x xs)

/-- The profitable filter is empty exactly when no member has strictly
positive net profit. -/
theorem profitable_filter_eq_nil_iff (opps : List ArbitrageOpportunity) :
    opps.filter (fun o => o.is_profitable) = [] ↔
      ∀ o ∈ opps, ¬ o.net_profit > 0 := by
  rw [List.filter_eq_nil_iff]
  simp [ArbitrageOpportunity.is_profitable]

/-- C8: select_best returns none exactly when the collection is empty or
holds no opportunity with strictly positive net profit, and MaxProfit on
net profits 4 and 8 returns the opportunity with net profit 8. -/
theorem select_best_spec :
    (∀ (opps : List ArbitrageOpportunity) (strategy : OptimizationStrategy),
      select_best opps strategy = none ↔
        (opps = [] ∨ ∀ o ∈ opps, ¬ o.net_profit > 0)) ∧
    select_best [opp4, opp8] OptimizationStrategy.MaxProfit = some opp8 := by
  constructor
  · intro opps strategy
    by_cases hemp : opps.isEmpty
    · have heq : opps = [] := by
        cases opps with
        | nil => rfl
        | cons a l => simp [List.isEmpty] at hemp
      subst heq
      cases strategy <;> simp [select_best]
    · have hne : opps ≠ [] := by
        cases opps with
        | nil => simp [List.isEmpty] at hemp
        | cons a l => exact List.cons_ne_nil a l
      cases strategy <;>
        simp only [select_best, if_neg hemp, max_by_eq_none_iff,
          min_by_eq_none_iff, profitable_filter_eq_nil_iff] <;>
        simp [hne]
  · have h4 : opp4.is_profitable = true := by
      norm_num [ArbitrageOpportunity.is_profitable, opp4]
    have h8 : opp8.is_profitable = true := by
      norm_num [ArbitrageOpportunity.is_profitable, opp8]
    have hlt : rcmp opp4.net_profit opp8.net_profit = Ordering.lt := by
      norm_num [rcmp, opp4, opp8]
    have hemp : ([opp4, opp8] : List ArbitrageOpportunity).isEmpty = false := rfl
    simp only [select_best, hemp, Bool.false_eq_true, if_false,
      List.filter_cons, h4, h8, if_true, List.filter_nil, max_by,
      List.foldl_cons, List.foldl_nil]
    simp [hlt]

/-- rcmp yields gt exactly when the first argument is strictly larger. -/
theorem rcmp_eq_gt_iff (a b : ℝ) : rcmp a b = Ordering.gt ↔ b < a := by
  rcases lt_trichotomy a b with h | h | h
  · simp [rcmp, h, asymm h]
  · simp [rcmp, h, lt_irrefl]
  · simp [rcmp, asymm h, ne_of_gt h, h]

/-- The fold underlying max_by with an rcmp comparator yields an element
whose key bounds the keys of the start element and the whole list. -/
theorem max_by_rcmp_foldl_spec {α : Type} (f : α → ℝ) :
    ∀ (l : List α) (a : α), ∃ b,
      l.foldl (fun acc x =>
        match acc with
        | none => some x
        | some a => if (fun a b => rcmp (f a) (f b)) a x = Ordering.gt
                    then some a else some x)
        (some a) = some b ∧
      (b = a ∨ b ∈ l) ∧ f a ≤ f b ∧ ∀ o ∈ l, f o ≤ f b := by
  intro l
  induction l with
  | nil =>
    intro a
    exact ⟨a, rfl, Or.inl rfl, le_refl _, by simp⟩
  | cons x xs ih =>
    intro a
    by_cases h : rcmp (f a) (f x) = Ordering.gt
    · obtain ⟨b, hb, hmem, hle, hall⟩ := ih a
      have hxa : f x < f a := (rcmp_eq_gt_iff _ _).mp h
      refine ⟨b, ?_, ?_, hle, ?_⟩
      · simpa [h] using hb
      · rcases hmem with rfl | hm
        · exact Or.inl rfl
        · exact Or.inr (List.mem_cons_of_mem x hm)
      · intro o ho
        rcases List.mem_cons.mp ho with rfl | hm
        · exact le_of_lt (lt_of_lt_of_le hxa hle)
        · exact hall o hm
    · obtain ⟨b, hb, hmem, hle, hall⟩ := ih x
      have hax : f a ≤ f x := by
        by_contra hcon
        push_neg at hcon
        exact h ((rcmp_eq_gt_iff _ _).mpr hcon)
      refine ⟨b, ?_, ?_, le_trans hax hle, ?_⟩
      · simpa [h] using hb
      · rcases hmem with rfl | hm
        · exact Or.inr (List.mem_cons_self _ _)
        · exact Or.inr (List.mem_cons_of_mem x hm)
      · intro o ho
        rcases List.mem_cons.mp ho with rfl | hm
        · exact hle
        · exact hall o hm

/-- max_by with an rcmp comparator on a non-empty list returns a member
maximizing the key. -/
theorem max_by_rcmp_spec {α : Type} (f : α → ℝ) (l : List α) (hne : l ≠ []) :
    ∃ b ∈ l, max_by l (fun a b => rcmp (f a) (f b)) = some b ∧
      ∀ o ∈ l, f o ≤ f b := by
  cases l with
  | nil => exact absurd rfl hne
  | cons x xs =>
    obtain ⟨b, hb, hmem, hle, hall⟩ := max_by_rcmp_foldl_spec f xs x
    refine ⟨b, ?_, ?_, ?_⟩
    · rcases hmem with rfl | hm
      · exact List.mem_cons_self _ _
      · exact List.mem_cons_of_mem x hm
    · simpa [max_by] using hb
    · intro o ho
      rcases List.mem_cons.mp ho with rfl | hm
      · exact hle
      · exact hall o hm

/-- C9: best_opportunity is the net-profit maximum over the whole
unfiltered list (so it can be present and unprofitable when nothing is
profitable, as the singleton negative example shows), while total_profit
sums the net profits of the profitable members only. -/
theorem multi_path_opportunity_new_spec (opps : List ArbitrageOpportunity)
    (t : Nat) (hne : opps ≠ []) :
    (∃ b ∈ opps, (MultiPathOpportunity.new opps t).best_opportunity = some b ∧
      ∀ o ∈ opps, o.net_profit ≤ b.net_profit) ∧
    (MultiPathOpportunity.new opps t).total_profit =
      (((MultiPathOpportunity.new opps t).profitable_opportunities).map
        (fun o => o.net_profit)).sum ∧
    (MultiPathOpportunity.new [oppNeg] 0).best_opportunity = some oppNeg ∧
    ¬ oppNeg.net_profit > 0 ∧
    (MultiPathOpportunity.new [oppNeg] 0).total_profit = 0 := by
  refine ⟨?_, rfl, rfl, ?_, ?_⟩
  · obtain ⟨b, hmem, hmax, hall⟩ :=
      max_by_rcmp_spec (fun o => o.net_profit) opps hne
    exact ⟨b, hmem, hmax, hall⟩
  · norm_num [oppNeg]
  · have hnp : oppNeg.is_profitable = false := by
      norm_num [ArbitrageOpportunity.is_profitable, oppNeg]
    simp [MultiPathOpportunity.new, List.filter_cons, hnp]

/-- A successful token lookup in a well-formed graph lands on a node
carrying that token. -/
theorem lookup_wf_token (g : TokenGraph) (t : Token) (i : Nat)
    (hwf : g.wf = true) (hl : g.lookupToken t = some i) :
    (g.nodes.getD i default).token = t := by
  unfold TokenGraph.lookupToken at hl
  cases hfind : g.token_to_node.find? (fun p => p.1 = t) with
  | none => rw [hfind] at hl; cases hl
  | some pr =>
    rw [hfind] at hl
    have hpr2 : pr.2 = i := by simpa using hl
    have hpredb : (fun q => decide (q.1 = t)) pr = true :=
      @List.find?_some _ (fun q => decide (q.1 = t)) pr g.token_to_node hfind
    have hpred : pr.1 = t := of_decide_eq_true hpredb
    have hmem : pr ∈ g.token_to_node := List.mem_of_find?_eq_some hfind
    have hall := (List.all_eq_true.mp hwf) pr hmem
    have hprop := of_decide_eq_true hall
    rw [← hpr2, hprop.2, hpred]

/-- Every cycle extract_negative_cycles emits passed its own length and
endpoint filter. -/
theorem extract_negative_cycles_bounds (g : TokenGraph) (ns : List Nat)
    (pred : Array (Option Nat)) (max_hops : Nat) (cycles : List (List Nat))
    (w : Nat) (hl : g.lookupToken g.wmnt_token = some w)
    (hex : g.extract_negative_cycles ns pred max_hops = some cycles) :
    ∀ c ∈ cycles, 4 ≤ c.length ∧ c.length ≤ max_hops + 1 ∧
      c.head? = some w ∧ c.getLast? = some w := by
  unfold TokenGraph.extract_negative_cycles at hex
  rw [hl] at hex
  dsimp only at hex
  split at hex
  · cases hex
  · injection hex with hex
    intro c hc
    rw [← hex] at hc
    exact of_decide_eq_true (List.mem_filter.mp hc).2

/-- Cycles out of spfa_detect_negative_cycles all passed the extract
filter. -/
theorem spfa_detect_bounds (g : TokenGraph) (source max_hops : Nat)
    (cycles : List (List Nat)) (w : Nat)
    (hl : g.lookupToken g.wmnt_token = some w)
    (hs : g.spfa_detect_negative_cycles source max_hops = some cycles) :
    ∀ c ∈ cycles, 4 ≤ c.length ∧ c.length ≤ max_hops + 1 ∧
      c.head? = some w ∧ c.getLast? = some w := by
  unfold TokenGraph.spfa_detect_negative_cycles at hs
  dsimp only at hs
  split at hs
  · cases hs
  · split at hs
    · exact extract_negative_cycles_bounds g _ _ max_hops cycles w hl hs
    · cases hs

/-- The token list of a converted path is the node path mapped through
the graph's nodes. -/
theorem convert_tokens_eq (g : TokenGraph) (np : List Nat) (p : ArbitragePath)
    (hcv : g.convert_node_path_to_arbitrage_path np = some p) :
    p.tokens = np.map (fun idx => (g.nodes.getD idx default).token) := by
  unfold TokenGraph.convert_node_path_to_arbitrage_path at hcv
  split at hcv
  · cases hcv
  · dsimp only at hcv
    split at hcv
    · injection hcv with h
      rw [← h]
      rfl
    · cases hcv

/-- C2: every path find_arbitrage_cycles returns from a well-formed
graph has a token count in the closed interval from 4 to max_hops plus
one and starts and ends at the base token. -/
theorem find_arbitrage_cycles_bounds (g : TokenGraph) (max_hops : Nat)
    (hwf : g.wf = true) :
    (g.find_arbitrage_cycles max_hops).all
      (pathCheck g.wmnt_token max_hops) = true := by
  rw [List.all_eq_true]
  intro p hp
  unfold TokenGraph.find_arbitrage_cycles at hp
  cases hl : g.lookupToken g.wmnt_token with
  | none => rw [hl] at hp; simp at hp
  | some w =>
    rw [hl] at hp
    dsimp only at hp
    cases hs : g.spfa_detect_negative_cycles w max_hops with
    | none => rw [hs] at hp; simp at hp
    | some cycles =>
      rw [hs] at hp
      dsimp only at hp
      obtain ⟨np, hnp, hcv⟩ := List.mem_filterMap.mp hp
      obtain ⟨hb1, hb2, hb3, hb4⟩ :=
        spfa_detect_bounds g w max_hops cycles w hl hs np hnp
      have htok := convert_tokens_eq g np p hcv
      have hwtok : (g.nodes.getD w default).token = g.wmnt_token :=
        lookup_wf_token g g.wmnt_token w hwf hl
      have hlen : p.tokens.length = np.length := by
        rw [htok, List.length_map]
      have hh : p.tokens.head? = some g.wmnt_token := by
        rw [htok, List.head?_map, hb3]
        show some ((g.nodes.getD w default).token) = some g.wmnt_token
        rw [hwtok]
      have hgl : p.tokens.getLast? = some g.wmnt_token := by
        rw [htok, List.getLast?_map, hb4]
        show some ((g.nodes.getD w default).token) = some g.wmnt_token
        rw [hwtok]
      simp [pathCheck, hlen, hb1, hb2, hh, hgl]

/-- Witness for C2 at a concrete one-node graph. -/
theorem find_arbitrage_cycles_bounds_witness :
    (witnessGraphC2.find_arbitrage_cycles 4).all
      (pathCheck witnessGraphC2.wmnt_token 4) = true :=
  find_arbitrage_cycles_bounds witnessGraphC2 4 rfl

/-- Two lookups in a well-formed graph landing on the same node carry
the same token. -/
theorem lookup_wf_inj (g : TokenGraph) (t t' : Token) (i : Nat)
    (hwf : g.wf = true) (h : g.lookupToken t = some i)
    (h' : g.lookupToken t' = some i) : t = t' :=
  (lookup_wf_token g t i hwf h).symm.trans (lookup_wf_token g t' i hwf h')

/-- Updating the first edge of one ordered pair leaves the lookup of any
other ordered pair unchanged. -/
theorem find?_update_first_edge_other (edges : List (Nat × Nat × DirectedEdge))
    (a b a' b' : Nat) (f : DirectedEdge → DirectedEdge)
    (h : ¬ (a' = a ∧ b' = b)) :
    (update_first_edge edges a b f).find? (fun e => e.1 = a' ∧ e.2.1 = b') =
      edges.find? (fun e => e.1 = a' ∧ e.2.1 = b') := by
  induction edges with
  | nil => rfl
  | cons e rest ih =>
    unfold update_first_edge
    by_cases hab : e.1 = a ∧ e.2.1 = b
    · rw [if_pos hab]
      by_cases hq : e.1 = a' ∧ e.2.1 = b'
      · exact absurd ⟨hq.1.symm.trans hab.1, hq.2.symm.trans hab.2⟩ h
      · simp only [List.find?_cons]
        simp [hq]
    · rw [if_neg hab]
      by_cases hq : e.1 = a' ∧ e.2.1 = b'
      · simp only [List.find?_cons]
        simp [hq]
      · simp only [List.find?_cons]
        simp only [List.find?_cons] at ih ⊢
        simpa [hq] using ih

/-- Looking up the pair whose first edge was updated returns that edge
with the update applied to its payload. -/
theorem find?_update_first_edge_self (edges : List (Nat × Nat × DirectedEdge))
    (a b : Nat) (f : DirectedEdge → DirectedEdge) :
    (update_first_edge edges a b f).find? (fun e => e.1 = a ∧ e.2.1 = b) =
      (edges.find? (fun e => e.1 = a ∧ e.2.1 = b)).map
        (fun e => (e.1, e.2.1, f e.2.2)) := by
  induction edges with
  | nil => rfl
  | cons e rest ih =>
    unfold update_first_edge
    by_cases hab : e.1 = a ∧ e.2.1 = b
    · rw [if_pos hab]
      simp only [List.find?_cons]
      simp [hab]
    · rw [if_neg hab]
      simp only [List.find?_cons]
      simpa [hab] using ih

/-- C4: after update_pool on a pool whose tokens and both directed edges
are present, get_pool_info returns a pool carrying the snapshot's latest
reserves in either query direction, and both directed edge weights have
been recomputed from those reserves. -/
theorem update_pool_get_pool_info (g : TokenGraph) (pr : PoolReserves)
    (ai bi : Nat)
    (hwf : g.wf = true)
    (hne : pr.token_a ≠ pr.token_b)
    (ha : g.lookupToken pr.token_a = some ai)
    (hb : g.lookupToken pr.token_b = some bi)
    (hab : (g.find_edge ai bi).isSome = true)
    (hba : (g.find_edge bi ai).isSome = true) :
    ∃ de de' : DirectedEdge,
      (g.update_pool pr).find_edge ai bi = some de ∧
      (g.update_pool pr).find_edge bi ai = some de' ∧
      (g.update_pool pr).get_pool_info pr.token_a pr.token_b =
        some de.original_pool ∧
      (g.update_pool pr).get_pool_info pr.token_b pr.token_a =
        some de'.original_pool ∧
      de.original_pool.reserves_a = u256_to_f64 pr.reserve_a ∧
      de.original_pool.reserves_b = u256_to_f64 pr.reserve_b ∧
      de'.original_pool.reserves_a = u256_to_f64 pr.reserve_a ∧
      de'.original_pool.reserves_b = u256_to_f64 pr.reserve_b ∧
      de.weight = (calculate_log_weights (u256_to_f64 pr.reserve_a)
        (u256_to_f64 pr.reserve_b) de.original_pool.fee).1 ∧
      de'.weight = (calculate_log_weights (u256_to_f64 pr.reserve_a)
        (u256_to_f64 pr.reserve_b) de'.original_pool.fee).2 := by
  have hne' : ai ≠ bi := by
    intro hcontra
    apply hne
    refine lookup_wf_inj g pr.token_a pr.token_b ai hwf ha ?_
    rw [hcontra]
    exact hb
  have hg'edges : (g.update_pool pr).edges =
      update_first_edge (update_first_edge g.edges ai bi
        (update_edge_a_to_b (u256_to_f64 pr.reserve_a) (u256_to_f64 pr.reserve_b)))
        bi ai
        (update_edge_b_to_a (u256_to_f64 pr.reserve_a) (u256_to_f64 pr.reserve_b)) := by
    simp [TokenGraph.update_pool, ha, hb]
  have hg'tok : (g.update_pool pr).token_to_node = g.token_to_node := by
    simp [TokenGraph.update_pool, ha, hb]
  have hg'lookup : ∀ t, (g.update_pool pr).lookupToken t = g.lookupToken t := by
    intro t
    unfold TokenGraph.lookupToken
    rw [hg'tok]
  obtain ⟨tr0, htr0⟩ : ∃ tr,
      g.edges.find? (fun e => e.1 = ai ∧ e.2.1 = bi) = some tr := by
    unfold TokenGraph.find_edge at hab
    cases hf : g.edges.find? (fun e => e.1 = ai ∧ e.2.1 = bi) with
    | none => rw [hf] at hab; simp at hab
    | some tr => exact ⟨tr, rfl⟩
  obtain ⟨tr1, htr1⟩ : ∃ tr,
      g.edges.find? (fun e => e.1 = bi ∧ e.2.1 = ai) = some tr := by
    unfold TokenGraph.find_edge at hba
    cases hf : g.edges.find? (fun e => e.1 = bi ∧ e.2.1 = ai) with
    | none => rw [hf] at hba; simp at hba
    | some tr => exact ⟨tr, rfl⟩
  have hfind1 : (g.update_pool pr).find_edge ai bi =
      some (update_edge_a_to_b (u256_to_f64 pr.reserve_a)
        (u256_to_f64 pr.reserve_b) tr0.2.2) := by
    unfold TokenGraph.find_edge
    rw [hg'edges]
    rw [find?_update_first_edge_other _ bi ai ai bi _
      (fun hcc => hne' hcc.1)]
    rw [find?_update_first_edge_self, htr0]
    rfl
  have hfind2 : (g.update_pool pr).find_edge bi ai =
      some (update_edge_b_to_a (u256_to_f64 pr.reserve_a)
        (u256_to_f64 pr.reserve_b) tr1.2.2) := by
    unfold TokenGraph.find_edge
    rw [hg'edges]
    rw [find?_update_first_edge_self]
    rw [find?_update_first_edge_other _ ai bi bi ai _
      (fun hcc => hne' hcc.2)]
    rw [htr1]
    rfl
  have hgp1 : (g.update_pool pr).get_pool_info pr.token_a pr.token_b =
      some (update_edge_a_to_b (u256_to_f64 pr.reserve_a)
        (u256_to_f64 pr.reserve_b) tr0.2.2).original_pool := by
    unfold TokenGraph.get_pool_info
    rw [hg'lookup, ha, hg'lookup, hb]
    dsimp only
    rw [hfind1]
  have hgp2 : (g.update_pool pr).get_pool_info pr.token_b pr.token_a =
      some (update_edge_b_to_a (u256_to_f64 pr.reserve_a)
        (u256_to_f64 pr.reserve_b) tr1.2.2).original_pool := by
    unfold TokenGraph.get_pool_info
    rw [hg'lookup, hb, hg'lookup, ha]
    dsimp only
    rw [hfind2]
  exact ⟨_, _, hfind1, hfind2, hgp1, hgp2, rfl, rfl, rfl, rfl, rfl, rfl⟩

/-- Witness for C4 at the two-token witness graph and snapshot. -/
theorem update_pool_get_pool_info_witness :
    ∃ de de' : DirectedEdge,
      (witnessGraphC4.update_pool witnessReserves).find_edge 0 1 = some de ∧
      (witnessGraphC4.update_pool witnessReserves).find_edge 1 0 = some de' ∧
      (witnessGraphC4.update_pool witnessReserves).get_pool_info
        witnessReserves.token_a witnessReserves.token_b =
        some de.original_pool ∧
      (witnessGraphC4.update_pool witnessReserves).get_pool_info
        witnessReserves.token_b witnessReserves.token_a =
        some de'.original_pool ∧
      de.original_pool.reserves_a = u256_to_f64 witnessReserves.reserve_a ∧
      de.original_pool.reserves_b = u256_to_f64 witnessReserves.reserve_b ∧
      de'.original_pool.reserves_a = u256_to_f64 witnessReserves.reserve_a ∧
      de'.original_pool.reserves_b = u256_to_f64 witnessReserves.reserve_b ∧
      de.weight = (calculate_log_weights (u256_to_f64 witnessReserves.reserve_a)
        (u256_to_f64 witnessReserves.reserve_b) de.original_pool.fee).1 ∧
      de'.weight = (calculate_log_weights (u256_to_f64 witnessReserves.reserve_a)
        (u256_to_f64 witnessReserves.reserve_b) de'.original_pool.fee).2 :=
  update_pool_get_pool_info witnessGraphC4 witnessReserves 0 1
    rfl (by decide) rfl rfl rfl rfl

/-- calculate_output on a pool holding reserve r on both sides yields
the equal-reserve swap value whichever side the input token matches. -/
theorem calculate_output_equal_reserves (pe : PoolEdge) (t : Token)
    (x r f : ℝ)
    (hra : pe.reserves_a = r) (hrb : pe.reserves_b = r) (hf : pe.fee = f)
    (ht : t = pe.token_a ∨ t = pe.token_b)
    (hr : 0 < r) (hx : 0 < x) :
    pe.calculate_output x t = some (amm_out_equal r f x) := by
  have hguard : ¬ (r ≤ 0 ∨ r ≤ 0 ∨ x ≤ 0) := by
    push_neg
    exact ⟨hr, hr, hx⟩
  unfold PoolEdge.calculate_output amm_out_equal
  by_cases hta : t = pe.token_a
  · rw [if_pos hta]
    dsimp only
    rw [hra, hrb, hf, if_neg hguard]
  · have htb : t = pe.token_b := ht.resolve_left hta
    rw [if_neg hta, if_pos htb]
    dsimp only
    rw [hra, hrb, hf, if_neg hguard]

/-- The equal-reserve swap output is positive for positive input. -/
theorem amm_out_equal_pos (r f x : ℝ) (hr : 0 < r) (hf1 : f < 1)
    (hx : 0 < x) : 0 < amm_out_equal r f x := by
  have h1 : 0 < 1 - f := by linarith
  exact div_pos (mul_pos (mul_pos hx h1) hr) (add_pos hr (mul_pos hx h1))

/-- With a strictly positive fee the equal-reserve swap output is
strictly below the input. -/
theorem amm_out_equal_lt (r f x : ℝ) (hr : 0 < r) (hf : 0 < f)
    (hf1 : f < 1) (hx : 0 < x) : amm_out_equal r f x < x := by
  have h1 : 0 < 1 - f := by linarith
  have hden : 0 < r + x * (1 - f) := add_pos hr (mul_pos hx h1)
  unfold amm_out_equal
  rw [div_lt_iff₀ hden]
  nlinarith [mul_pos (mul_pos hx hr) hf, mul_pos (mul_pos hx hx) h1]

/-- C5: replaying the full round trip through three equal-reserve pools
with a strictly positive fee yields a defined, strictly negative profit
for every strictly positive input. -/
theorem calculate_path_profit_equal_reserves_neg (g : TokenGraph)
    (t0 t1 t2 : Token) (n0 n1 n2 : Nat) (pools : List Address)
    (e01 e12 e20 : DirectedEdge) (r f x : ℝ)
    (hw : g.wmnt_token = t0)
    (hl0 : g.lookupToken t0 = some n0)
    (hl1 : g.lookupToken t1 = some n1)
    (hl2 : g.lookupToken t2 = some n2)
    (he01 : g.find_edge n0 n1 = some e01)
    (he12 : g.find_edge n1 n2 = some e12)
    (he20 : g.find_edge n2 n0 = some e20)
    (hp01 : e01.original_pool.reserves_a = r ∧
      e01.original_pool.reserves_b = r ∧ e01.original_pool.fee = f ∧
      (t0 = e01.original_pool.token_a ∨ t0 = e01.original_pool.token_b))
    (hp12 : e12.original_pool.reserves_a = r ∧
      e12.original_pool.reserves_b = r ∧ e12.original_pool.fee = f ∧
      (t1 = e12.original_pool.token_a ∨ t1 = e12.original_pool.token_b))
    (hp20 : e20.original_pool.reserves_a = r ∧
      e20.original_pool.reserves_b = r ∧ e20.original_pool.fee = f ∧
      (t2 = e20.original_pool.token_a ∨ t2 = e20.original_pool.token_b))
    (hr : 0 < r) (hf : 0 < f) (hf1 : f < 1) (hx : 0 < x) :
    ∃ p, g.calculate_path_profit (ArbitragePath.new [t0, t1, t2, t0] pools) x =
      some p ∧ p < 0 := by
  obtain ⟨hra01, hrb01, hf01, ht01⟩ := hp01
  obtain ⟨hra12, hrb12, hf12, ht12⟩ := hp12
  obtain ⟨hra20, hrb20, hf20, ht20⟩ := hp20
  have hy1pos : 0 < amm_out_equal r f x := amm_out_equal_pos r f x hr hf1 hx
  have hy2pos : 0 < amm_out_equal r f (amm_out_equal r f x) :=
    amm_out_equal_pos r f _ hr hf1 hy1pos
  have h1 := calculate_output_equal_reserves e01.original_pool t0 x r f
    hra01 hrb01 hf01 ht01 hr hx
  have h2 := calculate_output_equal_reserves e12.original_pool t1
    (amm_out_equal r f x) r f hra12 hrb12 hf12 ht12 hr hy1pos
  have h3 := calculate_output_equal_reserves e20.original_pool t2
    (amm_out_equal r f (amm_out_equal r f x)) r f hra20 hrb20 hf20 ht20 hr hy2pos
  have hloop : path_profit_loop g [t0, t1, t2, t0] x =
      some (amm_out_equal r f (amm_out_equal r f (amm_out_equal r f x))) := by
    simp only [path_profit_loop, hl0, hl1, hl2, he01, he12, he20, h1, h2, h3]
  refine ⟨amm_out_equal r f (amm_out_equal r f (amm_out_equal r f x)) - x,
    ?_, ?_⟩
  · have htokens : (ArbitragePath.new [t0, t1, t2, t0] pools).tokens =
        [t0, t1, t2, t0] := rfl
    unfold TokenGraph.calculate_path_profit
    rw [htokens]
    rw [if_neg (by norm_num)]
    rw [hloop]
    have hlast : [t0, t1, t2, t0].getLast? = some t0 := rfl
    rw [hlast]
    dsimp only
    rw [hw]
    rw [if_neg (fun hcc => hcc rfl)]
  · have hlt3 : amm_out_equal r f (amm_out_equal r f (amm_out_equal r f x)) <
        amm_out_equal r f (amm_out_equal r f x) :=
      amm_out_equal_lt r f _ hr hf hf1 hy2pos
    have hlt2 : amm_out_equal r f (amm_out_equal r f x) < amm_out_equal r f x :=
      amm_out_equal_lt r f _ hr hf hf1 hy1pos
    have hlt1 : amm_out_equal r f x < x := amm_out_equal_lt r f x hr hf hf1 hx
    linarith

/-- Witness for C5 at the three-pool equal-reserve witness graph. -/
theorem calculate_path_profit_equal_reserves_neg_witness :
    ∃ p, witnessGraphC5.calculate_path_profit
        (ArbitragePath.new [Token.WMNT 0, Token.MOE 1, Token.JOE 2, Token.WMNT 0]
          [11, 12, 13]) 100 = some p ∧ p < 0 :=
  calculate_path_profit_equal_reserves_neg witnessGraphC5
    (Token.WMNT 0) (Token.MOE 1) (Token.JOE 2) 0 1 2 [11, 12, 13]
    witnessEdge01 witnessEdge12 witnessEdge20 1000 (1 / 2) 100
    rfl rfl rfl rfl rfl rfl rfl
    ⟨rfl, rfl, rfl, Or.inl rfl⟩ ⟨rfl, rfl, rfl, Or.inl rfl⟩
    ⟨rfl, rfl, rfl, Or.inl rfl⟩
    (by norm_num) (by norm_num) (by norm_num) (by norm_num)

/-- Witness for C9 at the singleton unprofitable list. -/
theorem multi_path_opportunity_new_spec_witness :
    (∃ b ∈ [oppNeg],
      (MultiPathOpportunity.new [oppNeg] 0).best_opportunity = some b ∧
      ∀ o ∈ [oppNeg], o.net_profit ≤ b.net_profit) ∧
    (MultiPathOpportunity.new [oppNeg] 0).total_profit =
      (((MultiPathOpportunity.new [oppNeg] 0).profitable_opportunities).map
        (fun o => o.net_profit)).sum ∧
    (MultiPathOpportunity.new [oppNeg] 0).best_opportunity = some oppNeg ∧
    ¬ oppNeg.net_profit > 0 ∧
    (MultiPathOpportunity.new [oppNeg] 0).total_profit = 0 :=
  multi_path_opportunity_new_spec [oppNeg] 0 (List.cons_ne_nil _ _)

end TriArb
